import Mathlib

/-!
Verification development for the r10k-go concurrent fetch pipeline.

Shallow embedding of the two source files:
* `main.go` — pipeline stages: `downloadModules` (downloader worker),
  `deduplicate`, `parseResults` (result aggregator), `main` (exit code).
* the `GithubTarballModule` file — `TargetFolder`, `IsUpToDate`,
  `downloadURL`, `Download`.

Stateful and effectful Go code is modelled by explicit environment records
(abstract filesystem / network responses) and by outcome records listing the
emitted results and the side effects (network fetches, folder removals,
sleeps, `Processed` invocations).
-/

namespace R10kGo

/-! ### Path helpers

Go `path.Join` cleans the joined path.  Every component the program joins is
a clean relative path without empty, `.` or `..` segments, so on these inputs
`path.Join` coincides with interleaving `/` between the non-empty components,
which is how we model it. -/

/-- Model of Go `path.Join` restricted to the clean components used by the
program: non-empty components joined with a slash. -/
def pathJoin (parts : List String) : String :=
  String.intercalate "/" (parts.filter (fun x => x != ""))

/-- Accumulator loop for `fieldsFunc`: `cur` holds the characters of the
field being built, in reverse.  Structural recursion over the remaining
characters so that concrete inputs evaluate by `decide`/`rfl`. -/
def fieldsAux (p : Char → Bool) : List Char → List Char → List String
  | cur, [] => if cur.isEmpty then [] else [String.mk cur.reverse]
  | cur, c :: cs =>
    if p c then
      if cur.isEmpty then fieldsAux p [] cs
      else String.mk cur.reverse :: fieldsAux p [] cs
    else fieldsAux p (c :: cur) cs

/-- Model of Go `strings.FieldsFunc(s, f)`: split `s` at runs of characters
satisfying `f`, dropping empty fields.  `TargetFolder` calls it with
`f(r) = (r == '/' || r == '-')`. -/
def fieldsFunc (p : Char → Bool) (s : String) : List String :=
  fieldsAux p [] s.toList

/-- Separator predicate used by `TargetFolder`: Go
`func(r rune) bool \x7b return r == '/' || r == '-' \x7d`. -/
def targetSep (c : Char) : Bool :=
  c == '/' || c == '-'

/-- Model of `(m *GithubTarballModule) TargetFolder()`.  `none` models the
`log.Fatal` on an empty environment root, the index-out-of-range panic on a
name with no field, and the dead `folderName == ""` fatal check. -/
def TargetFolder (envRoot installPath name : String) : Option String :=
  if envRoot = "" then none
  else
    match (fieldsFunc targetSep name).getLast? with
    | none => none
    | some folderName =>
      if folderName = "" then none
      else if installPath ≠ "" then some (pathJoin [envRoot, installPath, folderName])
      else some (pathJoin [envRoot, "modules", folderName])

/-- Spec-side helper for the claim about target folders: the last **path**
segment of the module name, i.e. the last field when splitting on `/` only. -/
def lastPathSegment (name : String) : Option String :=
  (fieldsFunc (fun c => c == '/') name).getLast?

/-- Spec-side target-folder formula exactly as the claim words it:
`<env-root>/<install-subpath or "modules">/<leaf-name>` with `leaf-name`
the last path segment of the module name. -/
def targetFolderClaim (envRoot installPath name : String) : Option String :=
  (lastPathSegment name).map (fun leaf =>
    pathJoin [envRoot, if installPath = "" then "modules" else installPath, leaf])

/-! ### Up-to-date check -/

/-- Abstract state of one declaration's target folder on disk. -/
structure TargetState where
  /-- `os.Stat` on the target folder succeeds. -/
  dirExists : Bool
  /-- Contents of `<target>/.version`; `none` when `ioutil.ReadFile` fails
  (file absent or unreadable). -/
  versionFile : Option String
deriving DecidableEq, Repr

/-- Model of `(m *GithubTarballModule) IsUpToDate()` for a declaration with
declared version `version` over target-folder state `st`. -/
def IsUpToDate (version : String) (st : TargetState) : Bool :=
  if !st.dirExists then false
  else if version = "" then true
  else
    match st.versionFile with
    | none => false
    | some v => v == version

/-! ### downloadURL and Download -/

/-- One element of the decoded GitHub tags listing (`GHModuleReleases`). -/
structure GHRelease where
  name : String
  tarballUrl : String
deriving DecidableEq, Repr

/-- Abstract outcome of the HTTP GET of the tags listing plus the decode of
its body, covering every early-exit branch of `downloadURL`. -/
inductive TagsResponse where
  /-- `http.Get` itself returned an error. -/
  | getFailed
  /-- Status code other than 200. -/
  | badStatus
  /-- `ioutil.ReadAll` on the body failed. -/
  | readFailed
  /-- `json.Unmarshal` failed. -/
  | malformedJSON
  /-- Well-formed body decoding to this list of releases. -/
  | ok (gr : List GHRelease)
deriving DecidableEq, Repr

/-- The dynamic type of the `error` value `downloadURL` returns: either a
`*DownloadError` carrying a retryable flag, or a plain error
(`json.Unmarshal`'s), which carries no flag. -/
inductive GoErr where
  | dl (retryable : Bool)
  | plain
deriving DecidableEq, Repr

/-- Result of `downloadURL`: a tarball URL together with the resolved
version (`m.version` after its possible mutation), an error, or the Go
runtime panic from an out-of-range index. -/
inductive URLOutcome where
  | ok (tarballUrl : String) (resolvedVersion : String)
  | err (e : GoErr)
  | panic
deriving DecidableEq, Repr

/-- Model of `(m *GithubTarballModule) downloadURL()`.  The tags HTTP GET is
issued unconditionally on entry; `resp` is its outcome.  With a declared
version, the first tag with that name is selected and version-not-found is a
non-retryable `DownloadError`; with an empty declared version the code reads
`gr[0]` without a bounds check, which panics on an empty list. -/
def downloadURL (version : String) (resp : TagsResponse) : URLOutcome :=
  match resp with
  | .getFailed => .err (.dl true)
  | .badStatus => .err (.dl true)
  | .readFailed => .err (.dl true)
  | .malformedJSON => .err .plain
  | .ok gr =>
    if version ≠ "" then
      match gr.find? (fun g => g.name == version) with
      | some g => .ok g.tarballUrl version
      | none => .err (.dl false)
    else
      match gr with
      | [] => .panic
      | g :: _ => .ok g.tarballUrl g.name

/-- The `DownloadError` struct of `main.go`: an error slot (modelled by the
flag `hasError`, true iff the wrapped `error` is non-nil) and the
`retryable` flag. -/
structure DownloadError where
  hasError : Bool
  retryable : Bool
deriving DecidableEq, Repr

/-- Result of one `Download()` call: the returned `DownloadError` value, or
a propagated Go panic. -/
inductive DlOutcome where
  | ret (e : DownloadError)
  | panic
deriving DecidableEq, Repr

/-- Network fetches issued during one `Download()` call. -/
structure NetEffects where
  /-- HTTP GETs of the tags listing (inside `downloadURL`). -/
  tagsFetches : Nat
  /-- HTTP GETs of the tarball itself. -/
  tarballFetches : Nat
deriving DecidableEq, Repr

/-- Abstract environment for one `Download()` call: the tags response and
the success/failure of each filesystem and network step. -/
structure DlEnv where
  tagsResp : TagsResponse
  /-- `os.Stat(<cacheFolder>/<v>.tar.gz)` succeeds, as a function of the
  resolved version `v`. -/
  cacheHas : String → Bool
  /-- `http.Get` of the tarball URL succeeds. -/
  tarballGetOk : Bool
  /-- `os.Open` of the cache blob succeeds.  (The error returned by
  `downloadToCache` is discarded by `Download`, so a failed cache write
  surfaces only here.) -/
  cacheOpenOk : Bool
  /-- `extract` succeeds. -/
  extractOk : Bool
  /-- `os.OpenFile` of the `.version` file succeeds. -/
  versionFileCreateOk : Bool

/-- Tail of `Download()` after the cache blob is in place: open it, extract,
write the `.version` file.  Each failure is a non-retryable error. -/
def extractAndFinish (env : DlEnv) : DlOutcome :=
  if !env.cacheOpenOk then .ret ⟨true, false⟩
  else if !env.extractOk then .ret ⟨true, false⟩
  else if !env.versionFileCreateOk then .ret ⟨true, false⟩
  else .ret ⟨false, false⟩

/-- Model of `(m *GithubTarballModule) Download()`.  Note the wrapping on
the first branch: any error from `downloadURL` is returned as
`DownloadError\x7berr, true\x7d` — retryable — regardless of the
classification the inner error carried. -/
def Download (version : String) (env : DlEnv) : DlOutcome × NetEffects :=
  match downloadURL version env.tagsResp with
  | .panic => (.panic, ⟨1, 0⟩)
  | .err _ => (.ret ⟨true, true⟩, ⟨1, 0⟩)
  | .ok _ rv =>
    if env.cacheHas rv then (extractAndFinish env, ⟨1, 0⟩)
    else if !env.tarballGetOk then (.ret ⟨true, true⟩, ⟨1, 1⟩)
    else (extractAndFinish env, ⟨1, 1⟩)

/-! ### Downloader worker (`downloadModules` in `main.go`)

The worker loop body for one declaration.  The attempt outcomes of the
repeated `m.Download()` calls are abstracted as a function
`d : Nat → Option Bool` giving the result of the k-th call (0-indexed):
`none` for success, `some r` for an error whose `retryable` flag is `r`. -/

/-- The `DownloadResult` struct of `main.go` (the module reference is kept
implicit: results are grouped per declaration). -/
structure DownloadResult where
  err : DownloadError
  skipped : Bool
  willRetry : Bool
deriving DecidableEq, Repr

/-- The result emitted when `IsUpToDate` holds. -/
def skippedResult : DownloadResult := ⟨⟨false, false⟩, true, false⟩

/-- The result emitted before sleeping and retrying; the loop guard
guarantees the attached error is retryable. -/
def willRetryResult : DownloadResult := ⟨⟨true, true⟩, false, true⟩

/-- The terminal result emitted when the final attempt errored with
retryable flag `r`. -/
def failureResult (r : Bool) : DownloadResult := ⟨⟨true, r⟩, false, false⟩

/-- The terminal result emitted on success. -/
def successResult : DownloadResult := ⟨⟨false, false⟩, false, false⟩

/-- The `maxTries` constant of `downloadModules`. -/
def maxTries : Nat := 3

/-- State produced by the retry loop of `downloadModules`. -/
structure LoopOut where
  /-- Will-retry results emitted, in order. -/
  emitted : List DownloadResult
  /-- The value of `derr` when the loop exits. -/
  finalErr : Option Bool
  /-- Number of `Download()` calls made inside the loop. -/
  extraCalls : Nat
  /-- Number of `time.Sleep(retryDelay)` calls. -/
  sleeps : Nat
deriving Repr

/-- The retry loop
`for i := 0; derr.error != nil && i < maxTries-1 && derr.retryable; i++`.
`fuel` is `maxTries - 1 - i`, the number of loop iterations still allowed;
`i` indexes attempts; `derr` is the outcome of attempt `i`. -/
def retryLoop (d : Nat → Option Bool) : Nat → Nat → Option Bool → LoopOut
  | 0, _, derr => ⟨[], derr, 0, 0⟩
  | fuel + 1, i, derr =>
    match derr with
    | some true =>
      let rest := retryLoop d fuel (i + 1) (d (i + 1))
      ⟨willRetryResult :: rest.emitted, rest.finalErr, rest.extraCalls + 1, rest.sleeps + 1⟩
    | _ => ⟨[], derr, 0, 0⟩

/-- Observable behaviour of the worker for one declaration. -/
structure WorkerOutcome where
  /-- Results sent on the results channel, in order. -/
  results : List DownloadResult
  /-- Total number of `m.Download()` calls. -/
  downloadCalls : Nat
  /-- Whether `os.RemoveAll(m.TargetFolder())` was invoked. -/
  removedTarget : Bool
  /-- Number of backoff sleeps. -/
  sleeps : Nat
deriving Repr

/-- Body of the `for m := range c` loop of `downloadModules` for one
declaration: skip when up to date, otherwise remove the target folder,
attempt the download with the retry loop, and emit one terminal result.
(Removal failure is `log.Fatalf`, outside the claims; removal is assumed to
succeed and is recorded in `removedTarget`.) -/
def downloadModulesStep (upToDate : Bool) (d : Nat → Option Bool) : WorkerOutcome :=
  if upToDate then ⟨[skippedResult], 0, false, 0⟩
  else
    let lo := retryLoop d (maxTries - 1) 0 (d 0)
    match lo.finalErr with
    | some r => ⟨lo.emitted ++ [failureResult r], lo.extraCalls + 1, true, lo.sleeps⟩
    | none => ⟨lo.emitted ++ [successResult], lo.extraCalls + 1, true, lo.sleeps⟩

/-! ### Deduplicator (`deduplicate` in `main.go`) -/

/-- Recursion of `deduplicate` over the arrival-ordered list of incoming
declarations.  `tf` is the target folder of a declaration after the
deduplicator has bound its environment root (`SetEnvRoot` /
`SetCacheFolder`); `seen` is the Go `map[string]bool` of target folders.
Returns the forwarded declarations and the dropped declarations — the
latter list records, in order, the declarations on which `Processed()` was
invoked by this stage. -/
def dedupGo {α : Type} (tf : α → String) (seen : List String) :
    List α → List α × List α
  | [] => ([], [])
  | m :: rest =>
    if seen.contains (tf m) then
      let r := dedupGo tf seen rest
      (r.1, m :: r.2)
    else
      let r := dedupGo tf (tf m :: seen) rest
      (m :: r.1, r.2)

/-- Model of `deduplicate`: starts with an empty seen set. -/
def deduplicate {α : Type} (tf : α → String) (ms : List α) : List α × List α :=
  dedupGo tf [] ms

/-- Spec-side first-writer-wins filter, following the claim's words: a
declaration is kept iff its target folder differs from that of every
earlier declaration in arrival order. -/
def firstWinsSpec {α : Type} (tf : α → String) : List α → List α
  | [] => []
  | m :: rest => m :: (firstWinsSpec tf rest).filter (fun x => tf x != tf m)

/-! ### Result aggregator (`parseResults` in `main.go`) -/

/-- Observable actions of `parseResults` for one received result. -/
structure AggAction where
  /-- Logged the "... Retrying" line. -/
  logRetrying : Bool
  /-- Logged the "... Giving up!" line. -/
  logGivingUp : Bool
  /-- Logged the "Downloaded ..." line. -/
  logDownloaded : Bool
  /-- Amount added to `downloadErrors`. -/
  failuresAdded : Nat
  /-- Incremented the wait group and enqueued a metadata file. -/
  enqueuedMetadata : Bool
  /-- Number of `res.m.Processed()` invocations. -/
  processedCalls : Nat
deriving DecidableEq, Repr

/-- Body of the `for res := range results` loop of `parseResults`.
`downloadDeps` is the `!cliOpts["--no-deps"]` flag; `metadataOk` abstracts
`NewMetadataFile(<target>/metadata.json) != nil`.  Note that the
metadata-discovery block is guarded only by `downloadDeps`, not by
`!res.skipped`: it runs for every non-error result. -/
def parseResultsStep (downloadDeps metadataOk : Bool) (res : DownloadResult) : AggAction :=
  if res.err.hasError then
    if res.err.retryable && res.willRetry then
      ⟨true, false, false, 0, false, 0⟩
    else
      ⟨false, true, false, 1, false, 1⟩
  else
    ⟨false, false, !res.skipped, 0, downloadDeps && metadataOk, 1⟩

/-- The `downloadErrors` counter accumulated by `parseResults` over a
stream of results and published on the `errorsCount` channel. -/
def parseResultsErrors (downloadDeps metadataOk : Bool) (rs : List DownloadResult) : Nat :=
  rs.foldl (fun acc r => acc + (parseResultsStep downloadDeps metadataOk r).failuresAdded) 0

/-- `main` receives the published count and calls `os.Exit(nErr)` with it. -/
def mainExitCode (downloadDeps metadataOk : Bool) (rs : List DownloadResult) : Nat :=
  parseResultsErrors downloadDeps metadataOk rs

/-- A result that the aggregator treats as a terminal failure: an error
that is not on the will-retry path. -/
def isTerminalFailure (r : DownloadResult) : Bool :=
  r.err.hasError && !r.willRetry

/-! ### Helper lemmas -/

theorem countP_replicate {α : Type} (p : α → Bool) (a : α) (k : Nat) :
    (List.replicate k a).countP p = if p a then k else 0 := by
  induction k with
  | zero => simp
  | succ k ih =>
    rw [List.replicate_succ, List.countP_cons, ih]
    cases h : p a <;> simp [h]

theorem sum_map_replicate {α : Type} (f : α → Nat) (a : α) (k : Nat) :
    ((List.replicate k a).map f).sum = k * f a := by
  induction k with
  | zero => simp
  | succ k ih => rw [List.replicate_succ]; simp [ih, Nat.succ_mul, Nat.add_comm]

theorem foldl_add_eq_sum {α : Type} (f : α → Nat) :
    ∀ (l : List α) (a : Nat), l.foldl (fun acc r => acc + f r) a = a + (l.map f).sum := by
  intro l
  induction l with
  | nil => intro a; simp
  | cons x xs ih => intro a; simp [List.foldl_cons, ih, Nat.add_assoc]

/-! ### Retry-loop lemmas -/

theorem retryLoop_emitted (d : Nat → Option Bool) (f : Nat) :
    ∀ (i : Nat) (derr : Option Bool),
      (retryLoop d f i derr).emitted
        = List.replicate (retryLoop d f i derr).extraCalls willRetryResult := by
  induction f with
  | zero => intro i derr; rfl
  | succ f ih =>
    intro i derr
    match derr with
    | none => rfl
    | some false => rfl
    | some true => simp [retryLoop, ih, List.replicate_succ]

theorem retryLoop_sleeps (d : Nat → Option Bool) (f : Nat) :
    ∀ (i : Nat) (derr : Option Bool),
      (retryLoop d f i derr).sleeps = (retryLoop d f i derr).extraCalls := by
  induction f with
  | zero => intro i derr; rfl
  | succ f ih =>
    intro i derr
    match derr with
    | none => rfl
    | some false => rfl
    | some true => simp [retryLoop, ih]

theorem retryLoop_extraCalls_le (d : Nat → Option Bool) (f : Nat) :
    ∀ (i : Nat) (derr : Option Bool), (retryLoop d f i derr).extraCalls ≤ f := by
  induction f with
  | zero => intro i derr; exact Nat.le_refl 0
  | succ f ih =>
    intro i derr
    match derr with
    | none => exact Nat.zero_le _
    | some false => exact Nat.zero_le _
    | some true =>
      simp only [retryLoop]
      exact Nat.succ_le_succ (ih (i + 1) (d (i + 1)))

theorem retryLoop_finalErr (d : Nat → Option Bool) (f : Nat) :
    ∀ (i : Nat), (retryLoop d f i (d i)).finalErr
      = d (i + (retryLoop d f i (d i)).extraCalls) := by
  induction f with
  | zero => intro i; simp [retryLoop]
  | succ f ih =>
    intro i
    match h : d i with
    | none => simp [retryLoop, h]
    | some false => simp [retryLoop, h]
    | some true =>
      simp only [retryLoop, h]
      have := ih (i + 1)
      rw [this]
      congr 1
      omega

theorem retryLoop_attempts (d : Nat → Option Bool) (f : Nat) :
    ∀ (i : Nat) (k : Nat), k < (retryLoop d f i (d i)).extraCalls →
      d (i + k) = some true := by
  induction f with
  | zero =>
    intro i k hk
    simp [retryLoop] at hk
  | succ f ih =>
    intro i k hk
    rcases h : d i with _ | b
    · rw [h] at hk; simp [retryLoop] at hk
    · cases b
      · rw [h] at hk; simp [retryLoop] at hk
      · rw [h] at hk
        simp only [retryLoop] at hk
        cases k with
        | zero => simpa using h
        | succ k =>
          have hlt : k < (retryLoop d f (i + 1) (d (i + 1))).extraCalls := by omega
          have hd := ih (i + 1) k hlt
          rw [show i + (k + 1) = (i + 1) + k by omega]
          exact hd

theorem retryLoop_exhausted (d : Nat → Option Bool) (f : Nat) :
    ∀ (i : Nat) (derr : Option Bool),
      (retryLoop d f i derr).finalErr = some true →
      (retryLoop d f i derr).extraCalls = f := by
  induction f with
  | zero => intro i derr _; rfl
  | succ f ih =>
    intro i derr h
    match derr with
    | none => exact absurd h (by simp [retryLoop])
    | some false => exact absurd h (by simp [retryLoop])
    | some true =>
      rw [retryLoop] at h ⊢
      simp only at h ⊢
      rw [ih (i + 1) (d (i + 1)) h]

/-! ### Worker-outcome lemmas -/

theorem downloadModulesStep_true_eq (d : Nat → Option Bool) :
    downloadModulesStep true d = ⟨[skippedResult], 0, false, 0⟩ := rfl

theorem downloadModulesStep_false_eq (d : Nat → Option Bool) :
    downloadModulesStep false d
      = (match (retryLoop d (maxTries - 1) 0 (d 0)).finalErr with
         | some r =>
            ⟨(retryLoop d (maxTries - 1) 0 (d 0)).emitted ++ [failureResult r],
             (retryLoop d (maxTries - 1) 0 (d 0)).extraCalls + 1, true,
             (retryLoop d (maxTries - 1) 0 (d 0)).sleeps⟩
         | none =>
            ⟨(retryLoop d (maxTries - 1) 0 (d 0)).emitted ++ [successResult],
             (retryLoop d (maxTries - 1) 0 (d 0)).extraCalls + 1, true,
             (retryLoop d (maxTries - 1) 0 (d 0)).sleeps⟩) := rfl

theorem downloadModulesStep_false_shape (d : Nat → Option Bool) :
    (downloadModulesStep false d).downloadCalls
        = (retryLoop d (maxTries - 1) 0 (d 0)).extraCalls + 1
    ∧ (downloadModulesStep false d).sleeps
        = (retryLoop d (maxTries - 1) 0 (d 0)).extraCalls
    ∧ (downloadModulesStep false d).removedTarget = true
    ∧ (downloadModulesStep false d).results
        = List.replicate (retryLoop d (maxTries - 1) 0 (d 0)).extraCalls willRetryResult
          ++ [match d ((retryLoop d (maxTries - 1) 0 (d 0)).extraCalls) with
              | some r => failureResult r
              | none => successResult] := by
  have hfe : (retryLoop d (maxTries - 1) 0 (d 0)).finalErr
      = d ((retryLoop d (maxTries - 1) 0 (d 0)).extraCalls) := by
    simpa using retryLoop_finalErr d (maxTries - 1) 0
  rcases hd : d ((retryLoop d (maxTries - 1) 0 (d 0)).extraCalls) with _ | r
  all_goals
    rw [downloadModulesStep_false_eq d, hfe, hd]
    refine ⟨rfl, ?_, rfl, ?_⟩
  · exact retryLoop_sleeps d (maxTries - 1) 0 (d 0)
  · rw [retryLoop_emitted d (maxTries - 1) 0 (d 0)]
  · exact retryLoop_sleeps d (maxTries - 1) 0 (d 0)
  · rw [retryLoop_emitted d (maxTries - 1) 0 (d 0)]

/-! ### Deduplicator lemmas -/

theorem dedupGo_append_perm {α : Type} (tf : α → String) :
    ∀ (ms : List α) (seen : List String),
      List.Perm ((dedupGo tf seen ms).1 ++ (dedupGo tf seen ms).2) ms := by
  intro ms
  induction ms with
  | nil => intro seen; simp [dedupGo]
  | cons m rest ih =>
    intro seen
    by_cases h : seen.contains (tf m) = true
    · simp only [dedupGo, h, if_pos]
      exact List.perm_middle.trans ((ih seen).cons m)
    · rw [dedupGo, if_neg h]
      simpa using (ih (tf m :: seen)).cons m

theorem firstWinsSpec_filter {α : Type} (tf : α → String) (s : String) :
    ∀ (l : List α),
      firstWinsSpec tf (l.filter (fun x => tf x != s))
        = (firstWinsSpec tf l).filter (fun x => tf x != s) := by
  intro l
  induction l with
  | nil => rfl
  | cons x l ih =>
    by_cases h : (tf x != s) = true
    · simp only [List.filter_cons, h, if_true, firstWinsSpec, ih, List.filter_filter]
      congr 1
      apply List.filter_congr
      intro y _
      rw [Bool.and_comm]
    · have hx : tf x = s := by simpa [bne_iff_ne] using Bool.of_not_eq_true h
      subst hx
      rw [firstWinsSpec]
      simp [List.filter_cons, List.filter_filter, ih, Bool.and_self]

theorem dedupGo_fst {α : Type} (tf : α → String) :
    ∀ (ms : List α) (seen : List String),
      (dedupGo tf seen ms).1
        = firstWinsSpec tf (ms.filter (fun x => !(seen.contains (tf x)))) := by
  intro ms
  induction ms with
  | nil => intro seen; rfl
  | cons m rest ih =>
    intro seen
    by_cases h : seen.contains (tf m) = true
    · have hm : tf m ∈ seen := List.elem_iff.mp h
      rw [dedupGo, if_pos h]
      simp only
      rw [List.filter_cons, if_neg (by simp [hm])]
      exact ih seen
    · have hm : tf m ∉ seen := fun hmem => h (List.elem_iff.mpr hmem)
      rw [dedupGo, if_neg h]
      simp only
      rw [List.filter_cons, if_pos (by simp [hm]), firstWinsSpec, ih (tf m :: seen),
        ← firstWinsSpec_filter]
      congr 2
      rw [List.filter_filter]
      apply List.filter_congr
      intro x _
      show (!(tf m :: seen).contains (tf x)) = ((tf x != tf m) && !seen.contains (tf x))
      rcases hc : tf x == tf m with _ | _
      · simp [List.contains, List.elem, hc, bne]
      · simp [List.contains, List.elem, hc, bne]

theorem deduplicate_fst_eq_firstWins {α : Type} (tf : α → String) (ms : List α) :
    (deduplicate tf ms).1 = firstWinsSpec tf ms := by
  rw [deduplicate, dedupGo_fst]
  congr 1
  apply List.filter_eq_self.mpr
  intro x _
  rfl

theorem firstWinsSpec_map_nodup {α : Type} (tf : α → String) :
    ∀ (ms : List α), ((firstWinsSpec tf ms).map tf).Nodup := by
  intro ms
  induction ms with
  | nil => exact List.nodup_nil
  | cons m rest ih =>
    rw [firstWinsSpec, List.map_cons, List.nodup_cons]
    constructor
    · intro hmem
      rcases List.mem_map.mp hmem with ⟨y, hy, hty⟩
      have := (List.mem_filter.mp hy).2
      rw [hty] at this
      exact absurd rfl (bne_iff_ne.mp this).symm
    · exact ((List.filter_sublist _).map tf).nodup ih

theorem firstWinsSpec_covers {α : Type} (tf : α → String) :
    ∀ (ms : List α) (m : α), m ∈ ms → tf m ∈ (firstWinsSpec tf ms).map tf := by
  intro ms
  induction ms with
  | nil => intro m hm; exact absurd hm (List.not_mem_nil m)
  | cons x rest ih =>
    intro m hm
    rw [firstWinsSpec, List.map_cons]
    rcases List.mem_cons.mp hm with hm | hm
    · exact hm ▸ List.mem_cons_self _ _
    · by_cases he : tf m = tf x
      · exact he ▸ List.mem_cons_self _ _
      · rcases List.mem_map.mp (ih m hm) with ⟨y, hy, hty⟩
        apply List.mem_cons_of_mem
        apply List.mem_map.mpr
        refine ⟨y, List.mem_filter.mpr ⟨hy, ?_⟩, hty⟩
        rw [hty]
        exact bne_iff_ne.mpr he

/-! ### Target-folder lemmas -/

theorem fieldsAux_ne_empty (p : Char → Bool) :
    ∀ (cs cur : List Char) (x : String), x ∈ fieldsAux p cur cs → x ≠ "" := by
  intro cs
  induction cs with
  | nil =>
    intro cur x hx
    rw [fieldsAux] at hx
    by_cases hc : cur.isEmpty = true
    · rw [if_pos hc] at hx
      exact absurd hx (List.not_mem_nil x)
    · rw [if_neg hc] at hx
      have hx' : x = String.mk cur.reverse := by simpa using hx
      intro hempty
      rw [hx'] at hempty
      have : cur.reverse = [] := congrArg String.data hempty
      have : cur = [] := by simpa using this
      rw [this] at hc
      exact hc rfl
  | cons c cs ih =>
    intro cur x hx
    rw [fieldsAux] at hx
    by_cases hp : p c = true
    · rw [if_pos hp] at hx
      by_cases hc : cur.isEmpty = true
      · rw [if_pos hc] at hx
        exact ih [] x hx
      · rw [if_neg hc] at hx
        rcases List.mem_cons.mp hx with hx | hx
        · intro hempty
          rw [hx] at hempty
          have : cur.reverse = [] := congrArg String.data hempty
          have : cur = [] := by simpa using this
          rw [this] at hc
          exact hc rfl
        · exact ih [] x hx
    · rw [if_neg hp] at hx
      exact ih (c :: cur) x hx

theorem fieldsFunc_mem_ne_empty (p : Char → Bool) (s : String) (x : String)
    (hx : x ∈ fieldsFunc p s) : x ≠ "" :=
  fieldsAux_ne_empty p s.toList [] x hx

/-! ### Claim theorems -/

/-- C1 counterexample: a declaration whose cache blob exists for its
declared version still issues one network fetch during `Download` — the
tags-listing GET inside `downloadURL`, which runs unconditionally — even
though the processing succeeds without fetching the tarball.  This refutes
"issues no network fetch at all". -/
theorem claim_C1_counterexample :
    (Download "1.0.0"
        ⟨.ok [⟨"1.0.0", "tb"⟩], fun _ => true, true, true, true, true⟩).2.tagsFetches
      + (Download "1.0.0"
          ⟨.ok [⟨"1.0.0", "tb"⟩], fun _ => true, true, true, true, true⟩).2.tarballFetches
      = 1
    ∧ (Download "1.0.0"
        ⟨.ok [⟨"1.0.0", "tb"⟩], fun _ => true, true, true, true, true⟩).1
      = .ret ⟨false, false⟩ :=
  ⟨rfl, rfl⟩

/-- C1 amended: if the cache blob exists for the resolved version, no
tarball fetch is issued — the blob is extracted directly — but the
tags-listing fetch of `downloadURL` is still issued (exactly once). -/
theorem claim_C1_cache_hit_skips_tarball_fetch (v : String) (env : DlEnv) (url rv : String)
    (h : downloadURL v env.tagsResp = .ok url rv) (hc : env.cacheHas rv = true) :
    (Download v env).2.tarballFetches = 0 ∧ (Download v env).2.tagsFetches = 1 := by
  rw [Download, h]
  simp [hc]

/-- Closed witness for C1's amended statement at a concrete cache-hit
environment. -/
theorem claim_C1_cache_hit_skips_tarball_fetch_witness :
    downloadURL "1.0.0"
        (DlEnv.tagsResp ⟨.ok [⟨"1.0.0", "tb"⟩], fun _ => true, true, true, true, true⟩)
      = .ok "tb" "1.0.0"
    ∧ (Download "1.0.0"
        ⟨.ok [⟨"1.0.0", "tb"⟩], fun _ => true, true, true, true, true⟩).2.tarballFetches = 0 :=
  ⟨by decide,
   (claim_C1_cache_hit_skips_tarball_fetch "1.0.0"
      ⟨.ok [⟨"1.0.0", "tb"⟩], fun _ => true, true, true, true, true⟩
      "tb" "1.0.0" (by decide) rfl).1⟩

/-- C2: the claim matches the spec, but the code violates it.
`downloadURL` classifies version-not-found as non-retryable
(`DownloadError\x7b..., false\x7d`), yet `Download` wraps every
`downloadURL` error as `DownloadError\x7berr, true\x7d` — retryable — so
the worker sleeps and retries up to the 3-attempt cap (two will-retry
results) instead of failing immediately with no retries. -/
theorem claim_C2_version_not_found_is_retried :
    downloadURL "9.9.9" (.ok [⟨"1.0.0", "tb"⟩]) = .err (.dl false)
    ∧ (Download "9.9.9"
        ⟨.ok [⟨"1.0.0", "tb"⟩], fun _ => false, true, true, true, true⟩).1
      = .ret ⟨true, true⟩
    ∧ (downloadModulesStep false (fun _ => some true)).downloadCalls = 3
    ∧ (downloadModulesStep false (fun _ => some true)).results.countP
        (fun r => r.willRetry) = 2
    ∧ (downloadModulesStep false (fun _ => some true)).results.countP
        isTerminalFailure = 1 := by
  refine ⟨by decide, rfl, rfl, by decide, by decide⟩

/-- C7 counterexample: for a skipped result with transitive discovery
enabled and a readable metadata file, the aggregator does more than
"mark-processed and nothing else": it builds and enqueues the metadata
file, exactly as it does for a success result. -/
theorem claim_C7_counterexample :
    (parseResultsStep true true skippedResult).enqueuedMetadata = true := rfl

/-- C7 amended: for every skipped result the aggregator writes no log line,
invokes mark-processed exactly once and does not increment the failure
count — but metadata discovery is not restricted to success results: the
metadata-file block runs for skipped results exactly as for successes
(whenever discovery is enabled and the metadata file opens cleanly). -/
theorem claim_C7_skipped_result (dd mo : Bool) :
    parseResultsStep dd mo skippedResult = ⟨false, false, false, 0, dd && mo, 1⟩
    ∧ (parseResultsStep dd mo skippedResult).enqueuedMetadata
        = (parseResultsStep dd mo successResult).enqueuedMetadata :=
  ⟨rfl, rfl⟩

/-- C8: the process exit code equals the number of terminal failure
results (will-retry and skipped results count zero), is additive over
result streams, and is 0 for a declaration that is skipped or succeeds. -/
theorem claim_C8_exit_code (dd mo u : Bool) (d : Nat → Option Bool)
    (rs₁ rs₂ : List DownloadResult) :
    mainExitCode dd mo (downloadModulesStep u d).results
        = (downloadModulesStep u d).results.countP isTerminalFailure
    ∧ mainExitCode dd mo (rs₁ ++ rs₂)
        = mainExitCode dd mo rs₁ + mainExitCode dd mo rs₂
    ∧ mainExitCode dd mo (downloadModulesStep true d).results = 0
    ∧ mainExitCode dd mo (downloadModulesStep false (fun _ => none)).results = 0 := by
  have hsum : ∀ rs : List DownloadResult, mainExitCode dd mo rs
      = (rs.map (fun r => (parseResultsStep dd mo r).failuresAdded)).sum := by
    intro rs
    rw [mainExitCode, parseResultsErrors, foldl_add_eq_sum]
    simp
  refine ⟨?_, ?_, rfl, rfl⟩
  · cases u
    · obtain ⟨_, _, _, hr⟩ := downloadModulesStep_false_shape d
      rw [hsum, hr, List.map_append, List.sum_append, sum_map_replicate,
        List.countP_append, countP_replicate]
      rcases d ((retryLoop d (maxTries - 1) 0 (d 0)).extraCalls) with _ | r
      · simp [parseResultsStep, isTerminalFailure, willRetryResult, successResult,
          List.countP_cons]
      · cases r <;>
          simp [parseResultsStep, isTerminalFailure, willRetryResult, failureResult,
            List.countP_cons]
    · rw [downloadModulesStep_true_eq]
      rfl
  · rw [hsum, hsum, hsum, List.map_append, List.sum_append]

/-- C9 counterexample: `TargetFolder` splits the module name on `-` as
well as `/`, so for the name `author/my-mod` the installed leaf folder is
`mod`, not the last path segment `my-mod` that the claim's formula
produces. -/
theorem claim_C9_counterexample :
    TargetFolder "env" "" "author/my-mod" = some "env/modules/mod"
    ∧ targetFolderClaim "env" "" "author/my-mod" = some "env/modules/my-mod"
    ∧ TargetFolder "env" "" "author/my-mod" ≠ targetFolderClaim "env" "" "author/my-mod" :=
  ⟨by decide, by decide, by decide⟩

/-- C9 amended: for every module declaration (with a non-empty environment
root and a name containing at least one non-separator character), the
target folder is the deterministic function
`<env-root>/<install-subpath or "modules">/<leaf-name>` where `leaf-name`
is the last field of the module name split on both `/` and `-` (Go
`strings.FieldsFunc`) — not merely the last path segment. -/
theorem claim_C9_target_folder (envRoot installPath name leaf : String)
    (he : envRoot ≠ "") (hl : (fieldsFunc targetSep name).getLast? = some leaf) :
    TargetFolder envRoot installPath name
      = some (pathJoin
          [envRoot, if installPath = "" then "modules" else installPath, leaf]) := by
  have hleaf : leaf ≠ "" :=
    fieldsFunc_mem_ne_empty targetSep name leaf (List.mem_of_getLast?_eq_some hl)
  rw [TargetFolder, if_neg he, hl]
  simp only [if_neg hleaf]
  by_cases hip : installPath = ""
  · rw [hip]
    simp
  · rw [if_pos (by exact hip), if_neg (by simpa using hip)]

/-- Closed witness for C9's amended statement. -/
theorem claim_C9_target_folder_witness :
    ("env" : String) ≠ ""
    ∧ (fieldsFunc targetSep "author/mod").getLast? = some "mod"
    ∧ TargetFolder "env" "" "author/mod"
        = some (pathJoin ["env", if ("" : String) = "" then "modules" else "", "mod"]) :=
  ⟨by decide, by decide, claim_C9_target_folder "env" "" "author/mod" "mod"
    (by decide) (by decide)⟩

/-- C10: the safety claim is what the code should do, but the code
violates it: with an empty declared version and a well-formed but empty
tags array, `downloadURL` evaluates `gr[0]` without a bounds check, which
is an index-out-of-range runtime panic rather than a returned error.  With
a non-empty tags list the index-0 access is in bounds and succeeds. -/
theorem claim_C10_empty_tags_panics :
    downloadURL "" (.ok []) = .panic
    ∧ downloadURL "" (.ok [⟨"2.0.0", "tb"⟩]) = .ok "tb" "2.0.0" :=
  ⟨rfl, rfl⟩

/-- C5: for every declaration, the downloader worker invokes the
variant-specific download at most 3 times in total; after each failed
retryable attempt except the last it emits a will-retry result and sleeps
(one backoff sleep per will-retry result); on a non-retryable error or
after exhausting the 3 attempts it emits exactly one terminal failure
result.  Attempt outcomes are abstracted by `d`; every attempt before the
last one failed retryably, and a terminal failure is emitted exactly when
the last attempt errored, which happens only on a non-retryable error or
at the attempt cap. -/
theorem claim_C5_retry_policy (u : Bool) (d : Nat → Option Bool) :
    (downloadModulesStep u d).downloadCalls ≤ maxTries
    ∧ (downloadModulesStep u d).sleeps
        = (downloadModulesStep u d).results.countP (fun r => r.willRetry)
    ∧ (u = false →
        (downloadModulesStep u d).results.countP (fun r => r.willRetry) + 1
          = (downloadModulesStep u d).downloadCalls)
    ∧ (u = false → ∀ k, k + 1 < (downloadModulesStep u d).downloadCalls → d k = some true)
    ∧ (u = false → ∀ r, d ((downloadModulesStep u d).downloadCalls - 1) = some r →
        (downloadModulesStep u d).results.countP isTerminalFailure = 1
        ∧ (r = false ∨ (downloadModulesStep u d).downloadCalls = maxTries))
    ∧ (u = false → d ((downloadModulesStep u d).downloadCalls - 1) = none →
        (downloadModulesStep u d).results.countP isTerminalFailure = 0) := by
  cases u
  · obtain ⟨hc, hs, _, hr⟩ := downloadModulesStep_false_shape d
    have hn : (retryLoop d (maxTries - 1) 0 (d 0)).extraCalls ≤ maxTries - 1 :=
      retryLoop_extraCalls_le d (maxTries - 1) 0 (d 0)
    have hatt : ∀ k, k < (retryLoop d (maxTries - 1) 0 (d 0)).extraCalls → d k = some true := by
      intro k hk
      simpa using retryLoop_attempts d (maxTries - 1) 0 k hk
    have hcount : (downloadModulesStep false d).results.countP (fun r => r.willRetry)
        = (retryLoop d (maxTries - 1) 0 (d 0)).extraCalls := by
      rw [hr, List.countP_append, countP_replicate]
      rcases d ((retryLoop d (maxTries - 1) 0 (d 0)).extraCalls) with _ | r
      · simp [willRetryResult, successResult, List.countP_cons]
      · simp [willRetryResult, failureResult, List.countP_cons]
    have hsub : (downloadModulesStep false d).downloadCalls - 1
        = (retryLoop d (maxTries - 1) 0 (d 0)).extraCalls := by omega
    have hm3 : maxTries = 3 := rfl
    refine ⟨by rw [hc]; omega, by rw [hcount, hs],
      fun _ => by rw [hcount, hc], fun _ => ?_, fun _ r hdr => ?_, fun _ hdr => ?_⟩
    · intro k hk
      exact hatt k (by omega)
    · rw [hsub] at hdr
      constructor
      · rw [hr, hdr, List.countP_append, countP_replicate]
        simp [isTerminalFailure, willRetryResult, failureResult, List.countP_cons]
      · cases r
        · exact Or.inl rfl
        · refine Or.inr ?_
          have hfe : (retryLoop d (maxTries - 1) 0 (d 0)).finalErr = some true := by
            rw [show (retryLoop d (maxTries - 1) 0 (d 0)).finalErr
                = d ((retryLoop d (maxTries - 1) 0 (d 0)).extraCalls) by
              simpa using retryLoop_finalErr d (maxTries - 1) 0]
            exact hdr
          have := retryLoop_exhausted d (maxTries - 1) 0 (d 0) hfe
          rw [hc, this, maxTries]
    · rw [hsub] at hdr
      rw [hr, hdr, List.countP_append, countP_replicate]
      simp [isTerminalFailure, willRetryResult, successResult, List.countP_cons]
  · rw [downloadModulesStep_true_eq]
    refine ⟨by simp [maxTries], by simp [skippedResult, List.countP_cons], ?_, ?_, ?_, ?_⟩
    all_goals exact fun h => Bool.noConfusion h

/-- Closed witness for C5: with every attempt failing retryably, the worker
makes exactly 3 download calls and finishes with one terminal failure. -/
theorem claim_C5_retry_policy_witness :
    (downloadModulesStep false (fun _ => some true)).results.countP
        (fun r => r.willRetry) + 1
      = (downloadModulesStep false (fun _ => some true)).downloadCalls
    ∧ (downloadModulesStep false (fun _ => some true)).results.countP isTerminalFailure = 1 :=
  ⟨(claim_C5_retry_policy false (fun _ => some true)).2.2.1 rfl,
   ((claim_C5_retry_policy false (fun _ => some true)).2.2.2.2.1 rfl true rfl).1⟩

/-- C6: the downloader worker emits a skipped result for a declaration —
performing no target-folder removal and no download call — if and only if
the declaration's target folder exists and (its declared version is empty
or the `.version` file inside the target folder equals the declared
version). -/
theorem claim_C6_skip_iff_up_to_date (st : TargetState) (v : String) (d : Nat → Option Bool) :
    IsUpToDate v st = (st.dirExists && (v == "" || st.versionFile == some v))
    ∧ ((downloadModulesStep (IsUpToDate v st) d).results.any (fun r => r.skipped)
        = (st.dirExists && (v == "" || st.versionFile == some v)))
    ∧ (downloadModulesStep (IsUpToDate v st) d).removedTarget = !(IsUpToDate v st)
    ∧ ((downloadModulesStep (IsUpToDate v st) d).downloadCalls = 0
        ↔ IsUpToDate v st = true) := by
  have hform : IsUpToDate v st = (st.dirExists && (v == "" || st.versionFile == some v)) := by
    rcases st with ⟨de, vf⟩
    cases de <;> rcases vf with _ | w <;> by_cases hv : v = "" <;>
      simp [IsUpToDate, hv, beq_iff_eq]
  have hnoskip : (downloadModulesStep false d).results.any (fun r => r.skipped) = false := by
    obtain ⟨_, _, _, hr⟩ := downloadModulesStep_false_shape d
    rw [hr, List.any_append]
    rcases d ((retryLoop d (maxTries - 1) 0 (d 0)).extraCalls) with _ | r
    · simp [willRetryResult, successResult, List.any_eq_true, List.mem_replicate]
    · simp [willRetryResult, failureResult, List.any_eq_true, List.mem_replicate]
  refine ⟨hform, ?_, ?_, ?_⟩ <;> cases h : IsUpToDate v st
  · rw [← hform, h, hnoskip]
  · rw [← hform, h, downloadModulesStep_true_eq]
    rfl
  · exact (downloadModulesStep_false_shape d).2.2.1
  · rw [downloadModulesStep_true_eq]
    rfl
  · obtain ⟨hc, _, _, _⟩ := downloadModulesStep_false_shape d
    rw [hc]
    simp
  · rw [downloadModulesStep_true_eq]
    simp

/-- Closed witness for C6 (its final conjunct is an iff, not a hypothesis,
but a concrete instantiation is given anyway): an existing folder whose
`.version` matches the declared version is skipped with no download call. -/
theorem claim_C6_skip_iff_up_to_date_witness :
    IsUpToDate "1.2.3" ⟨true, some "1.2.3"⟩ = true
    ∧ (downloadModulesStep (IsUpToDate "1.2.3" ⟨true, some "1.2.3"⟩)
        (fun _ => none)).downloadCalls = 0 :=
  ⟨by decide,
   (claim_C6_skip_iff_up_to_date ⟨true, some "1.2.3"⟩ "1.2.3"
      (fun _ => none)).2.2.2.mpr (by decide)⟩

/-- C3: every declaration has `Processed` invoked exactly once across all
terminal paths.  A declaration dropped by the deduplicator appears exactly
once in the dropped list (on which `Processed` is invoked) and never in the
forwarded list, and the two lists partition the input; a forwarded
declaration's emitted results trigger exactly one `Processed` call in the
aggregator in total, and will-retry results trigger none. -/
theorem claim_C3_processed_exactly_once {α : Type} (u dd mo : Bool) (d : Nat → Option Bool)
    (tf : α → String) (ms : List α) :
    ((downloadModulesStep u d).results.map
        (fun r => (parseResultsStep dd mo r).processedCalls)).sum = 1
    ∧ ((downloadModulesStep u d).results.filter (fun r => r.willRetry)).all
        (fun r => (parseResultsStep dd mo r).processedCalls == 0) = true
    ∧ List.Perm ((deduplicate tf ms).1 ++ (deduplicate tf ms).2) ms := by
  refine ⟨?_, ?_, dedupGo_append_perm tf ms []⟩ <;> cases u
  · obtain ⟨_, _, _, hr⟩ := downloadModulesStep_false_shape d
    rw [hr, List.map_append, List.sum_append, sum_map_replicate]
    rcases d ((retryLoop d (maxTries - 1) 0 (d 0)).extraCalls) with _ | r
    · simp [parseResultsStep, willRetryResult, successResult]
    · cases r <;>
        simp [parseResultsStep, willRetryResult, failureResult]
  · rw [downloadModulesStep_true_eq]
    rfl
  · obtain ⟨_, _, _, hr⟩ := downloadModulesStep_false_shape d
    rw [List.all_eq_true]
    intro r hrm
    have hmem := (List.mem_filter.mp hrm).1
    have hwr := (List.mem_filter.mp hrm).2
    rw [hr] at hmem
    have hrwr : r = willRetryResult := by
      rcases hd : d ((retryLoop d (maxTries - 1) 0 (d 0)).extraCalls) with _ | r'
      all_goals rw [hd] at hmem
      · rcases List.mem_append.mp hmem with hm | hm
        · exact List.eq_of_mem_replicate hm
        · simp at hm
          rw [hm] at hwr
          exact absurd hwr (by simp [successResult])
      · rcases List.mem_append.mp hmem with hm | hm
        · exact List.eq_of_mem_replicate hm
        · simp at hm
          rw [hm] at hwr
          exact absurd hwr (by simp [failureResult])
    rw [hrwr]
    rfl
  · rw [downloadModulesStep_true_eq]
    rfl

/-- C4: the deduplicator forwards a declaration iff its target folder
differs from that of every earlier declaration in arrival order
(`firstWinsSpec`); the forwarded target folders are pairwise distinct,
every input's target folder is represented among them, and the dropped
declarations (each of which has `Processed` invoked) account exactly for
the rest of the input. -/
theorem claim_C4_deduplicate_first_wins {α : Type} (tf : α → String) (ms : List α) :
    (deduplicate tf ms).1 = firstWinsSpec tf ms
    ∧ ((deduplicate tf ms).1.map tf).Nodup
    ∧ ms.all (fun m => decide (tf m ∈ (deduplicate tf ms).1.map tf)) = true
    ∧ (deduplicate tf ms).1.length + (deduplicate tf ms).2.length = ms.length := by
  refine ⟨deduplicate_fst_eq_firstWins tf ms, ?_, ?_, ?_⟩
  · rw [deduplicate_fst_eq_firstWins]
    exact firstWinsSpec_map_nodup tf ms
  · rw [List.all_eq_true]
    intro m hm
    rw [decide_eq_true_eq, deduplicate_fst_eq_firstWins]
    exact firstWinsSpec_covers tf ms m hm
  · have := (dedupGo_append_perm tf ms []).length_eq
    rw [List.length_append] at this
    exact this

end R10kGo

section EvaluationChecks
/-! Concrete evaluations of the embedded definitions, confirming that they
compute on the inputs the source's behaviour was traced on. -/
open R10kGo

example : fieldsFunc targetSep "author/my-mod" = ["author", "my", "mod"] := by decide
example : TargetFolder "env" "" "author/my-mod" = some "env/modules/mod" := by decide
example : targetFolderClaim "env" "" "author/my-mod" = some "env/modules/my-mod" := by decide
example : downloadURL "" (.ok []) = .panic := rfl
example : downloadURL "9.9.9" (.ok [⟨"1.0.0", "tb"⟩]) = .err (.dl false) := by decide
example : (Download "9.9.9" ⟨.ok [⟨"1.0.0", "tb"⟩], fun _ => false, true, true, true, true⟩).1
    = .ret ⟨true, true⟩ := rfl

example : (downloadModulesStep false (fun _ => some true)).downloadCalls = 3 := rfl
example : (downloadModulesStep false (fun _ => some true)).results
    = [willRetryResult, willRetryResult, failureResult true] := rfl
example : (downloadModulesStep false (fun _ => some false)).results = [failureResult false] := rfl
example : (downloadModulesStep false (fun _ => none)).results = [successResult] := rfl
example : (downloadModulesStep true (fun _ => none)).results = [skippedResult] := rfl
example : (deduplicate (fun s : String => s) ["a", "b", "a"]).1 = ["a", "b"] := by decide
example : (deduplicate (fun s : String => s) ["a", "b", "a"]).2 = ["a"] := by decide
example : firstWinsSpec (fun s : String => s) ["a", "b", "a"] = ["a", "b"] := by decide
example : (parseResultsStep true true skippedResult).enqueuedMetadata = true := rfl
example : mainExitCode true true [willRetryResult, failureResult true, successResult] = 1 := rfl

end EvaluationChecks
